import Mathlib

/-!
Verification of the WYGIWYH MCP server core (src/server.py) against its
natural-language specification.

The development shallowly embeds the core translation engine:
* `convert_openapi_to_json_schema` (the Schema Resolver),
* `generate_tools_from_openapi` (the Tool Catalog Builder),
* the argument-splitting and request-preparation part of `call_tool`
  (Argument Splitter + Request Dispatcher), and
* the response-classification part of `call_tool`.

Python dicts are embedded as association lists in insertion order:
assignment to a key is `upsert` (value replaced in place, original position
kept), lookup is first-match `List.lookup`.  Schema fragments carry the
exact keys the source reads; all other keys copied verbatim by the source
are collected in an opaque `extra` list.  Strings use their underlying
character lists so that every definition evaluates inside the kernel.
Unbounded recursion in the source (schema resolution may recurse through
`$ref` into the components table, which the source does not guard) is
modelled with an explicit fuel parameter: fuel exhaustion, like the
uncaught Python `RecursionError`/`IndexError`, is the `none` outcome.
-/

/-! ### String helpers over character lists

Core `String` functions such as `String.startsWith`, `String.toUpper`,
`String.replace` and `String.splitOn` do not reduce inside the kernel, so
the embedding re-implements the handful of Python string operations the
source uses directly over `String.data`. -/

/-- Python `key.startswith(p)`. -/
def strStartsWith (s p : String) : Bool :=
  p.data.isPrefixOf s.data

/-- Python `s[n:]` (drop the first `n` characters). -/
def strDrop (s : String) (n : Nat) : String :=
  ⟨s.data.drop n⟩

/-- Python `s[:n]` (keep the first `n` characters). -/
def strTake (s : String) (n : Nat) : String :=
  ⟨s.data.take n⟩

/-- Python `s.upper()` (the source only ever uppercases ASCII method names). -/
def strUpper (s : String) : String :=
  ⟨s.data.map Char.toUpper⟩

/-- Replace, in `s`, every non-overlapping occurrence of the non-empty
pattern `pat` by `rep`, scanning left to right.  Structural recursion on a
fuel that starts at `s.length`: with a non-empty pattern every recursive
call strictly shortens the list, so the fuel is never exhausted on a
non-empty list. -/
def replaceFuel (rep pat : List Char) : Nat → List Char → List Char
  | 0, s => s
  | n + 1, s =>
    match s with
    | [] => []
    | c :: rest =>
      if pat.isPrefixOf (c :: rest) then
        rep ++ replaceFuel rep pat n ((c :: rest).drop pat.length)
      else
        c :: replaceFuel rep pat n rest

/-- Python `s.replace(pat, rep)`.  The source only calls this with the
non-empty pattern `"\x7b" + name + "\x7d"`; an empty pattern is returned
unchanged here so the definition is total. -/
def strReplace (s pat rep : String) : String :=
  match pat.data with
  | [] => s
  | _ :: _ => ⟨replaceFuel rep.data pat.data s.data.length s.data⟩

/-- Python `sub in s` (substring containment). -/
def strContains (s sub : String) : Bool :=
  go s.data
where
  go : List Char → Bool
    | [] => sub.data.isPrefixOf []
    | c :: rest => sub.data.isPrefixOf (c :: rest) || go rest

/-- Python `s.split(sep)` for a single-character separator (the source only
splits `$ref` strings on `"/"`).  Never returns `[]`. -/
def splitOnChar (s : List Char) (sep : Char) : List String :=
  match s with
  | [] => [""]
  | c :: rest =>
    let tail := splitOnChar rest sep
    if c = sep then
      "" :: tail
    else
      match tail with
      | [] => [⟨[c]⟩]
      | t :: ts => (⟨c :: t.data⟩ : String) :: ts

/-! ### Python-dict helpers

A Python dict is an insertion-ordered association list with unique keys;
`upsert` is dict assignment `d[k] = v` (replaces the value of an existing
key in place, otherwise appends), `updateAll` is `d.update(m)`. -/

/-- Dict assignment `d[k] = v`. -/
def upsert {α : Type} (l : List (String × α)) (k : String) (v : α) :
    List (String × α) :=
  match l with
  | [] => [(k, v)]
  | (k', v') :: rest =>
    if k' = k then (k, v) :: rest else (k', v') :: upsert rest k v

/-- Dict update `d.update(m)`: assign every entry of `m` into `l` in order. -/
def updateAll {α : Type} (l m : List (String × α)) : List (String × α) :=
  m.foldl (fun acc kv => upsert acc kv.1 kv.2) l

/-- The key list of a dict. -/
def dictKeys {α : Type} (l : List (String × α)) : List String :=
  l.map Prod.fst

/-- Dict lookup `d.get(k)` / `d[k]` (first match; dict keys are unique). -/
def dictGet {α : Type} (l : List (String × α)) (k : String) : Option α :=
  match l with
  | [] => none
  | (k0, v0) :: tl => if k = k0 then some v0 else dictGet tl k

/-- Left-biased choice on `Option` (used to state lookup lemmas). -/
def orOpt {α : Type} (a b : Option α) : Option α :=
  match a with
  | some v => some v
  | none => b

/-! ### Schema fragments (the recursive dict shape `convert_openapi_to_json_schema` reads)

`extra` collects, with opaque values, the remaining keys the source copies
verbatim in its final loop (`title`, `maxLength`, `minLength`, `maximum`,
`minimum`, `pattern`, `format`, `nullable`, `items`, `enum`); `description`
is kept as a named field because the catalog builder assigns to it.
An absent key is `none`; the fragment with every field absent is the empty
dict `\x7b\x7d`. -/
structure Fragment where
  ref : Option String
  allOf : Option (List Fragment)
  oneOf : Option (List Fragment)
  type : Option String
  properties : Option (List (String × Fragment))
  required : Option (List String)
  readOnly : Option Bool
  description : Option String
  extra : List (String × String)

/-- The empty schema fragment (the Python empty dict). -/
def Fragment.emptyDict : Fragment :=
  ⟨none, none, none, none, none, none, none, none, []⟩

/-- Python truthiness test `not schema`: true exactly on the empty dict. -/
def Fragment.isEmptyDict (f : Fragment) : Bool :=
  f.ref.isNone && f.allOf.isNone && f.oneOf.isNone && f.type.isNone &&
    f.properties.isNone && f.required.isNone && f.readOnly.isNone &&
    f.description.isNone && f.extra.isEmpty

/-- `components` as `convert_openapi_to_json_schema` reads it:
`components.get("schemas", \x7b\x7d)` is the `schemas` field (absent ≡ `[]`). -/
structure Components where
  schemas : List (String × Fragment)

/-- Outcome of the `$ref` head branch of `convert_openapi_to_json_schema`
(lines 71-76): either there is no `$ref` key, or the reference is resolved
to a component schema, or the reference string is too short for the chained
indexing `ref_path[1]`/`ref_path[2]`/`ref_path[3]` (Python `IndexError`),
or the branch falls through (malformed prefix or unknown schema name). -/
inductive RefOutcome where
  | absent
  | target (t : Fragment)
  | indexError
  | fallthrough

/-- The `$ref` branch: split `schema["$ref"]` on `"/"`, check the shape
`#/components/schemas/<Name>` with Python short-circuit `and` (so a path of
fewer than four segments whose checked prefix matches raises `IndexError`),
and look the name up in `components.get("schemas", \x7b\x7d)`. -/
def refOutcome (schema : Fragment) (components : Components) : RefOutcome :=
  match schema.ref with
  | none => .absent
  | some r =>
    match splitOnChar r.data '/' with
    | [] => .fallthrough
    | p0 :: rest0 =>
      if p0 = "#" then
        match rest0 with
        | [] => .indexError
        | p1 :: rest1 =>
          if p1 = "components" then
            match rest1 with
            | [] => .indexError
            | p2 :: rest2 =>
              if p2 = "schemas" then
                match rest2 with
                | [] => .indexError
                | nm :: _ =>
                  match dictGet components.schemas nm with
                  | some t => .target t
                  | none => .fallthrough
              else .fallthrough
          else .fallthrough
      else .fallthrough

/-- One loop iteration's effect on `merged_properties` (line 86):
`merged_properties.update(converted["properties"])` when the key is
present. -/
def mergePropsStep (p : List (String × Fragment)) (c : Fragment) :
    List (String × Fragment) :=
  match c.properties with
  | some ps => updateAll p ps
  | none => p

/-- One loop iteration's effect on `merged_required` (line 88). -/
def mergeReqStep (r : List String) (c : Fragment) : List String :=
  match c.required with
  | some rs => r ++ rs
  | none => r

/-- One loop iteration's effect on `merged_type` (lines 89-90): assign
`converted["type"]` when the key is present and the accumulator is still
falsy (`None` or `""`). -/
def mergeTypeStep (t : Option String) (c : Fragment) : Option String :=
  match c.type with
  | some ty => if t = none ∨ t = some "" then some ty else t
  | none => t

/-- `merged_type or "object"` (line 92): a falsy merged type (absent or
`""`) defaults to `"object"`. -/
def normType (t : Option String) : String :=
  match t with
  | some ty => if ty = "" then "object" else ty
  | none => "object"

/-- The `allOf` merge (lines 78-98), applied to the already-converted
sub-schemas: one pass accumulating merged properties (dict update, later
sub-schemas overwrite earlier on key collision), merged required
(concatenation), and the merged type (first truthy value wins; a present
falsy `""` is stored but can still be overwritten).  The final `type` is
`merged_type or "object"`; `properties`/`required` are emitted only when
non-empty, and `required` is deduplicated (`list(set(...))`, whose order
Python leaves unspecified; modelled by `List.dedup`). -/
def mergeAllOf (cs : List Fragment) : Fragment :=
  let st := cs.foldl
    (fun (st : List (String × Fragment) × List String × Option String) c =>
      (mergePropsStep st.1 c, mergeReqStep st.2.1 c, mergeTypeStep st.2.2 c))
    ([], [], none)
  { ref := none, allOf := none, oneOf := none
    type := some (normType st.2.2)
    properties := if st.1.isEmpty then none else some st.1
    required := if st.2.1.isEmpty then none else some st.2.1.dedup
    readOnly := none, description := none, extra := [] }

/-- The part of `convert_openapi_to_json_schema` past the `$ref` branch
(lines 78-119), abstracted over the recursive converter `conv` (the
recursive calls of lines 84 and 110): the `allOf` merge, the
first-alternative `oneOf` policy (an empty `oneOf` list is the `IndexError`
of line 101, hence `none`), and the plain branch that copies `type`,
converts `properties` dropping every property whose own schema has truthy
`readOnly`, keeps of `required` only the names present in the filtered
properties, and copies the remaining listed keys verbatim. -/
def convertTail (conv : Fragment → Option Fragment) (schema : Fragment) :
    Option Fragment :=
  match schema.allOf with
  | some subs =>
    match subs.mapM conv with
    | none => none
    | some cs => some (mergeAllOf cs)
  | none =>
    match schema.oneOf with
    | some [] => none
    | some (a :: _) => some a
    | none =>
      let propsResult :=
        match schema.properties with
        | none => some none
        | some ps =>
          match ps.foldl
              (fun acc nv =>
                match acc with
                | none => none
                | some kept =>
                  if nv.2.readOnly.getD false then some kept
                  else
                    match conv nv.2 with
                    | none => none
                    | some cs => some (upsert kept nv.1 cs))
              (some []) with
          | none => none
          | some kept => some (some kept)
      match propsResult with
      | none => none
      | some propsField =>
        some { ref := none, allOf := none, oneOf := none
               type := schema.type
               properties := propsField
               required := match schema.required with
                 | none => none
                 | some rs =>
                   some (rs.filter
                     (fun r => (dictKeys (propsField.getD [])).contains r))
               readOnly := none
               description := schema.description
               extra := schema.extra }

/-- `convert_openapi_to_json_schema(schema, components)` (lines 64-119).
Fuel bounds the recursion depth; `none` models a Python crash (unbounded
`$ref` recursion, `IndexError` on a short `$ref` path or an empty `oneOf`
list).  Branches, in source order: empty dict → the default object schema;
resolvable `$ref` → recurse into the named component; everything else is
`convertTail` applied to the one-step-smaller converter. -/
def convert_openapi_to_json_schema (fuel : Nat) (schema : Fragment)
    (components : Components) : Option Fragment :=
  match fuel with
  | 0 => none
  | fuel + 1 =>
    if schema.isEmptyDict then
      some { Fragment.emptyDict with
               type := some "object", properties := some [] }
    else
      match refOutcome schema components with
      | .indexError => none
      | .target t => convert_openapi_to_json_schema fuel t components
      | _ =>
        convertTail
          (fun s => convert_openapi_to_json_schema fuel s components) schema

/-! ### Tool catalog builder (`generate_tools_from_openapi`, lines 121-188) -/

/-- One entry of an operation's `parameters` list.  `name` and the `in`
location are read by direct indexing in the source (`param["name"]`,
`param["in"]`), so their absence is a Python `KeyError`, modelled as a
`none` outcome of tool generation; the other keys are read with `.get`
defaults. -/
structure Param where
  name : Option String
  paramIn : Option String
  schema : Option Fragment
  required : Option Bool
  description : Option String

/-- A media object of a request body's `content` map (only its `schema`
key is read, with `.get("schema", \x7b\x7d)`). -/
structure MediaObject where
  schema : Option Fragment

/-- A request body: its `content` map (`req_body.get("content", \x7b\x7d)`,
absent ≡ `[]`). -/
structure RequestBody where
  content : List (String × MediaObject)

/-- An operation object: the keys `call_tool` and the catalog builder read. -/
structure Operation where
  operationId : Option String
  summary : Option String
  description : Option String
  parameters : Option (List Param)
  requestBody : Option RequestBody

/-- The OpenAPI document: `paths` (path template → method → operation, in
document order) and `components`. -/
structure OpenAPISpec where
  paths : List (String × List (String × Operation))
  components : Components

/-- A generated tool input schema: always the fixed dict
`\x7b"type": "object", "properties": \x7b\x7d, "required": []\x7d` filled in place. -/
structure InputSchema where
  type : String
  properties : List (String × Fragment)
  required : List String

/-- A generated MCP tool descriptor. -/
structure Tool where
  name : String
  description : String
  inputSchema : InputSchema

/-- The HTTP methods the builder and the dispatcher accept. -/
def httpMethods : List String := ["GET", "POST", "PUT", "PATCH", "DELETE"]

/-- The builder's parameter loop (lines 141-155): resolve each parameter's
schema (defaulting to `\x7b"type": "string"\x7d`), overwrite its description
with `param.get("description", "")`, namespace the key by location
(`path_`/`query_`; any other location keeps the bare name), insert it into
`properties`, and append the namespaced key to `required` when the
parameter is marked required. -/
def addParams (fuel : Nat) (components : Components) :
    List Param → InputSchema → Option InputSchema
  | [], acc => some acc
  | p :: rest, acc =>
    match p.name with
    | none => none
    | some nm =>
      match convert_openapi_to_json_schema fuel
          (p.schema.getD { Fragment.emptyDict with type := some "string" })
          components with
      | none => none
      | some ps0 =>
        let ps := { ps0 with description := some (p.description.getD "") }
        match p.paramIn with
        | none => none
        | some loc =>
          let key :=
            if loc = "path" then "path_" ++ nm
            else if loc = "query" then "query_" ++ nm
            else nm
          addParams fuel components rest
            { acc with
              properties := upsert acc.properties key ps
              required :=
                if p.required.getD false then acc.required ++ [key]
                else acc.required }

/-- The builder's request-body step (lines 157-178): try the content types
in fixed preference order and take the first present; skip the body if the
selected media object's schema is absent or the empty dict; otherwise
resolve it, and when the resolved schema has a `properties` key insert each
top-level property under `body_<name>` and (only then) append
`body_<field>` for each name of the resolved `required` list. -/
def addBody (fuel : Nat) (components : Components) (rb : RequestBody)
    (acc : InputSchema) : Option InputSchema :=
  let bodySchema :=
    (["application/json", "application/x-www-form-urlencoded",
      "multipart/form-data", "text/plain"].findSome?
      (fun ct => dictGet rb.content ct)).map
      (fun m => m.schema.getD Fragment.emptyDict)
  match bodySchema with
  | none => some acc
  | some bs =>
    if bs.isEmptyDict then some acc
    else
      match convert_openapi_to_json_schema fuel bs components with
      | none => none
      | some converted =>
        match converted.properties with
        | none => some acc
        | some bps =>
          let acc1 := { acc with
            properties := bps.foldl
              (fun props nv => upsert props ("body_" ++ nv.1) nv.2)
              acc.properties }
          match converted.required with
          | none => some acc1
          | some rs =>
            some { acc1 with
              required := acc1.required ++ rs.map (fun r => "body_" ++ r) }

/-- Build the tool for one `(path, method, operation)` triple (lines
132-184): name is `operationId` with fallback `"<method>_<path>"`,
description is `description`, else `summary`, else `"<METHOD> <path>"`,
truncated to 1024 characters; the input schema starts as the fixed object
schema and is filled by the parameter and body steps. -/
def buildTool (fuel : Nat) (components : Components) (path method : String)
    (op : Operation) : Option Tool :=
  let operationId := op.operationId.getD (method ++ "_" ++ path)
  let description :=
    op.description.getD (op.summary.getD (strUpper method ++ " " ++ path))
  let schema0 : InputSchema := ⟨"object", [], []⟩
  match (match op.parameters with
         | none => some schema0
         | some ps => addParams fuel components ps schema0) with
  | none => none
  | some schema1 =>
    match (match op.requestBody with
           | none => some schema1
           | some rb => addBody fuel components rb schema1) with
    | none => none
    | some schema2 =>
      some ⟨operationId, strTake description 1024, schema2⟩

/-- The builder's method loop over one path item: methods whose uppercase
form is not one of the five HTTP verbs are skipped. -/
def genPathItem (fuel : Nat) (components : Components) (path : String) :
    List (String × Operation) → Option (List Tool)
  | [] => some []
  | (method, op) :: rest =>
    if httpMethods.contains (strUpper method) then
      match buildTool fuel components path method op with
      | none => none
      | some t =>
        match genPathItem fuel components path rest with
        | none => none
        | some ts => some (t :: ts)
    else genPathItem fuel components path rest

/-- The builder's path loop. -/
def genPaths (fuel : Nat) (components : Components) :
    List (String × List (String × Operation)) → Option (List Tool)
  | [] => some []
  | (path, item) :: rest =>
    match genPathItem fuel components path item with
    | none => none
    | some ts =>
      match genPaths fuel components rest with
      | none => none
      | some more => some (ts ++ more)

/-- `generate_tools_from_openapi(spec)` (lines 121-188): one tool per
`(path, method)` pair in document order.  `none` models a Python exception
escaping the builder (a crash inside schema resolution or a missing
`param["name"]`/`param["in"]` key). -/
def generate_tools_from_openapi (fuel : Nat) (spec : OpenAPISpec) :
    Option (List Tool) :=
  genPaths fuel spec.components spec.paths

/-! ### Credentials (`get_auth_header`, lines 23-30)

`base64.b64encode(f"\x7buser\x7d:\x7bpass\x7d".encode()).decode()` is embedded with an
explicit UTF-8 encoder and base64 alphabet so it evaluates in the kernel. -/

/-- UTF-8 encoding of one character (Python `str.encode()` is UTF-8). -/
def utf8Bytes (c : Char) : List Nat :=
  let n := c.toNat
  if n < 128 then [n]
  else if n < 2048 then [192 + n / 64, 128 + n % 64]
  else if n < 65536 then [224 + n / 4096, 128 + n / 64 % 64, 128 + n % 64]
  else [240 + n / 262144, 128 + n / 4096 % 64, 128 + n / 64 % 64, 128 + n % 64]

/-- UTF-8 bytes of a string. -/
def strBytes (s : String) : List Nat :=
  (s.data.map utf8Bytes).flatten

/-- The base64 alphabet. -/
def base64Table : List Char :=
  "ABCDEFGHIJKLMNOPQRSTUVWXYZabcdefghijklmnopqrstuvwxyz0123456789+/".data

/-- The base64 digit for a 6-bit value. -/
def b64c (n : Nat) : Char :=
  base64Table.getD n '?'

/-- Standard base64 of a byte list, three bytes to four digits with `'='`
padding (`base64.b64encode`). -/
def b64groups : List Nat → List Char
  | [] => []
  | [b1] => [b64c (b1 / 4), b64c (b1 % 4 * 16), '=', '=']
  | [b1, b2] => [b64c (b1 / 4), b64c (b1 % 4 * 16 + b2 / 16), b64c (b2 % 16 * 4), '=']
  | b1 :: b2 :: b3 :: rest =>
    b64c (b1 / 4) :: b64c (b1 % 4 * 16 + b2 / 16) ::
      b64c (b2 % 16 * 4 + b3 / 64) :: b64c (b3 % 64) :: b64groups rest

/-- `base64.b64encode(bs).decode()`. -/
def base64Encode (bs : List Nat) : String :=
  ⟨b64groups bs⟩

/-- `get_auth_header()` (lines 23-30): the Basic auth header value, or `""`
when either credential is unset/empty (`os.getenv` defaults to `""`; the
Python truthiness test `api_username and api_password` requires both
non-empty). -/
def get_auth_header (api_username api_password : String) : String :=
  if api_username ≠ "" ∧ api_password ≠ "" then
    base64Encode (strBytes (api_username ++ ":" ++ api_password))
  else ""

/-! ### Dispatch (`call_tool`, lines 195-332)

Argument values are embedded as their string forms: the source only ever
stringifies a value (`str(param_value)` in path substitution) or forwards
it verbatim (query params, JSON body). -/

/-- The configured base URL (line 21). -/
def API_BASE_URL : String := "https://your-WYGIWYH.com"

/-- The argument-splitting loop (lines 230-240): one pass over the
argument dict; keys with prefix `path_`/`query_`/`body_` go, stripped of
the prefix, into the corresponding bucket dict; all other keys are
silently dropped. -/
def splitStep
    (acc : List (String × String) × List (String × String) ×
      List (String × String)) (kv : String × String) :
    List (String × String) × List (String × String) ×
      List (String × String) :=
  if strStartsWith kv.1 "path_" then
    (upsert acc.1 (strDrop kv.1 5) kv.2, acc.2.1, acc.2.2)
  else if strStartsWith kv.1 "query_" then
    (acc.1, upsert acc.2.1 (strDrop kv.1 6) kv.2, acc.2.2)
  else if strStartsWith kv.1 "body_" then
    (acc.1, acc.2.1, upsert acc.2.2 (strDrop kv.1 5) kv.2)
  else acc

def splitArguments (args : List (String × String)) :
    List (String × String) × List (String × String) × List (String × String) :=
  args.foldl splitStep ([], [], [])

/-- First operation of one path item whose method (uppercased) is one of
the five verbs and whose `operationId` equals `name` (the inner loop of
lines 212-220, which breaks at the first match). -/
def findOpInItem (name : String) :
    List (String × Operation) → Option (String × Operation)
  | [] => none
  | (method, op) :: rest =>
    if httpMethods.contains (strUpper method) &&
        op.operationId == some name then
      some (method, op)
    else findOpInItem name rest

/-- The operation-lookup loop (lines 206-222).  Faithful to the source's
break structure: after scanning a path item the outer loop stops only when
the found `path` is truthy (`if path: break`), so a match under the empty
path template `""` does not stop the scan and can be overwritten by a
later match. -/
def findOperation (name : String) :
    List (String × List (String × Operation)) →
    Option (String × String × Operation) → Option (String × String × Operation)
  | [], st => st
  | (path, item) :: rest, st =>
    let st' := match findOpInItem name item with
      | some (method, op) => some (path, strUpper method, op)
      | none => st
    match st' with
    | some (p, _, _) => if p ≠ "" then st' else findOperation name rest st'
    | none => findOperation name rest st'

/-- What `call_tool` does up to (and including) issuing the HTTP request:
either an early error or the request it sends.  `send method url headers
query body` records the outbound request; `body = none` means the request
carries no body (the `httpx` call without a `json=` argument). -/
inductive PrepResult where
  | missingCredentials
  | toolNotFound
  | send (method : String) (url : String)
      (headers : List (String × String))
      (queryParams : List (String × String))
      (body : Option (List (String × String)))
  | unsupportedMethod (method : String)

/-- The request-preparation part of `call_tool(name, arguments)` (lines
195-278), in source order: credentials check first (`if not auth_header`),
then operation lookup (`Tool not found` also when the matched path is
falsy), argument splitting, `\x7bname\x7d` placeholder substitution into the path
template, URL assembly, and the per-method `httpx` call: GET and DELETE
never attach a body; POST, PUT and PATCH attach `body_data` as a JSON body
and set `Content-Type` exactly when `body_data` is non-empty. -/
def call_tool (spec : OpenAPISpec) (api_username api_password : String)
    (name : String) (arguments : List (String × String)) : PrepResult :=
  let auth_header := get_auth_header api_username api_password
  if auth_header = "" then .missingCredentials
  else
    match findOperation name spec.paths none with
    | none => .toolNotFound
    | some (path, method, _op) =>
      if path = "" ∨ method = "" then .toolNotFound
      else
        let split := splitArguments arguments
        let url := split.1.foldl
          (fun u pv => strReplace u ("\x7b" ++ pv.1 ++ "\x7d") pv.2) path
        let full_url := API_BASE_URL ++ url
        let headers := [("Authorization", "Basic " ++ auth_header),
                        ("Accept", "application/json")]
        if method = "GET" then
          .send "GET" full_url headers split.2.1 none
        else if method = "POST" then
          if !split.2.2.isEmpty then
            .send "POST" full_url (upsert headers "Content-Type" "application/json")
              split.2.1 (some split.2.2)
          else .send "POST" full_url headers split.2.1 none
        else if method = "PUT" then
          if !split.2.2.isEmpty then
            .send "PUT" full_url (upsert headers "Content-Type" "application/json")
              split.2.1 (some split.2.2)
          else .send "PUT" full_url headers split.2.1 none
        else if method = "PATCH" then
          if !split.2.2.isEmpty then
            .send "PATCH" full_url (upsert headers "Content-Type" "application/json")
              split.2.1 (some split.2.2)
          else .send "PATCH" full_url headers split.2.1 none
        else if method = "DELETE" then
          .send "DELETE" full_url headers split.2.1 none
        else .unsupportedMethod method

/-! ### Response classification (lines 280-326) -/

/-- A JSON value (the shape of the dispatch result payload). -/
inductive JVal where
  | str (s : String)
  | num (n : Int)
  | bool (b : Bool)
  | null
  | arr (elems : List JVal)
  | obj (fields : List (String × JVal))

/-- The downstream HTTP response as `call_tool` observes it through the
`httpx` client (an external collaborator): its status code, the outcome of
`response.json()` (`none` when parsing raises), the `content-type` header
(`.get` default `""`), the raw text, and the result of the `<title>` regex
search the error branch performs on an HTML body. -/
structure DownResponse where
  statusCode : Nat
  jsonValue : Option JVal
  contentType : String
  text : String
  htmlTitle : Option String

/-- The best-effort detail of the HTTP-error branch (lines 304-321); the
final string formatting of the detail is presentation and is kept
structural here. -/
inductive ErrorDetail where
  | fromJson (v : JVal)
  | htmlPage (status : Nat) (title : Option String)
  | rawText (t : String)

/-- A classified dispatch outcome: the success `result` value that is
JSON-serialized into the returned text, or the HTTP-error report. -/
inductive CallOutcome where
  | success (payload : JVal)
  | httpError (status : Nat) (detail : ErrorDetail)

/-- Response classification (lines 280-301 and the `HTTPStatusError`
handler, lines 304-326): `raise_for_status()` diverts every 4xx/5xx status
to the error branch; status 204 yields the fixed success payload; an
otherwise parseable JSON body is the payload; an HTML body yields the
preview envelope (first 500 characters); anything else the raw-text
envelope. -/
def handleResponse (r : DownResponse) : CallOutcome :=
  if 400 ≤ r.statusCode then
    .httpError r.statusCode
      (match r.jsonValue with
       | some v => .fromJson v
       | none =>
         if strContains r.contentType "text/html" then
           .htmlPage r.statusCode r.htmlTitle
         else .rawText (strTake r.text 500))
  else if r.statusCode = 204 then
    .success (JVal.obj [("status", .str "success"),
      ("message", .str "Resource deleted or no content returned")])
  else
    match r.jsonValue with
    | some v => .success v
    | none =>
      if strContains r.contentType "text/html" then
        .success (JVal.obj [("status", .str "success"),
          ("content_type", .str r.contentType),
          ("message", .str "Response received (HTML content)"),
          ("text_preview", .str (strTake r.text 500))])
      else .success (JVal.obj [("response", .str r.text)])

/-! ### Generic lemmas about the dict model -/

theorem dictGet_nil {α : Type} (k : String) :
    dictGet ([] : List (String × α)) k = none := rfl

theorem dictGet_cons {α : Type} (k k0 : String) (v0 : α)
    (tl : List (String × α)) :
    dictGet ((k0, v0) :: tl) k = if k = k0 then some v0 else dictGet tl k :=
  rfl

theorem dictGet_upsert {α : Type} (l : List (String × α)) (k k' : String)
    (v : α) :
    dictGet (upsert l k v) k' = if k' = k then some v else dictGet l k' := by
  induction l with
  | nil => simp [upsert, dictGet]
  | cons hd tl ih =>
    obtain ⟨k0, v0⟩ := hd
    by_cases h0 : k0 = k
    · subst h0
      by_cases h1 : k' = k0 <;> simp [upsert, dictGet_cons, h1]
    · by_cases h1 : k' = k0
      · subst h1
        simp [upsert, h0, dictGet_cons, Ne.symm h0]
      · simp [upsert, h0, dictGet_cons, h1, ih]

theorem mem_dictKeys_upsert {α : Type} (l : List (String × α))
    (k a : String) (v : α) :
    a ∈ dictKeys (upsert l k v) ↔ a ∈ dictKeys l ∨ a = k := by
  induction l with
  | nil => simp [upsert, dictKeys]
  | cons hd tl ih =>
    obtain ⟨k0, v0⟩ := hd
    by_cases h0 : k0 = k
    · subst h0
      simp only [upsert, if_pos rfl, if_true, dictKeys, List.map_cons,
        List.mem_cons]
      tauto
    · rw [upsert, if_neg h0]
      show a ∈ dictKeys ((k0, v0) :: upsert tl k v) ↔ _
      simp only [dictKeys, List.map_cons, List.mem_cons]
      rw [show List.map Prod.fst (upsert tl k v) = dictKeys (upsert tl k v)
            from rfl, ih]
      tauto

theorem dictGet_eq_none_of_not_mem_dictKeys {α : Type}
    (l : List (String × α)) (a : String) (h : a ∉ dictKeys l) :
    dictGet l a = none := by
  induction l with
  | nil => rfl
  | cons hd tl ih =>
    obtain ⟨k0, v0⟩ := hd
    simp only [dictKeys, List.map_cons, List.mem_cons] at h
    push_neg at h
    rw [dictGet_cons, if_neg h.1]
    exact ih h.2

theorem dictGet_append {α : Type} (l₁ l₂ : List (String × α)) (k : String) :
    dictGet (l₁ ++ l₂) k = orOpt (dictGet l₁ k) (dictGet l₂ k) := by
  induction l₁ with
  | nil => simp [dictGet, orOpt]
  | cons hd tl ih =>
    obtain ⟨k0, v0⟩ := hd
    by_cases h : k = k0
    · simp [dictGet_cons, h, orOpt]
    · simp [dictGet_cons, h, ih]

theorem updateAll_nil {α : Type} (l : List (String × α)) :
    updateAll l [] = l := rfl

theorem updateAll_cons {α : Type} (l : List (String × α)) (k : String)
    (v : α) (m : List (String × α)) :
    updateAll l ((k, v) :: m) = updateAll (upsert l k v) m := rfl

theorem updateAll_append {α : Type} (l m₁ m₂ : List (String × α)) :
    updateAll l (m₁ ++ m₂) = updateAll (updateAll l m₁) m₂ := by
  simp [updateAll, List.foldl_append]

theorem dictGet_updateAll {α : Type} (l m : List (String × α)) (k : String) :
    dictGet (updateAll l m) k = orOpt (dictGet m.reverse k) (dictGet l k) := by
  induction m generalizing l with
  | nil => simp [updateAll, dictGet, orOpt]
  | cons hd tl ih =>
    obtain ⟨k1, v1⟩ := hd
    rw [updateAll_cons, ih, List.reverse_cons, dictGet_append]
    cases htl : dictGet tl.reverse k with
    | some v => simp [orOpt]
    | none =>
      simp only [orOpt, dictGet_upsert, dictGet_cons, dictGet_nil]
      by_cases h : k = k1 <;> simp [h]

theorem mem_dictKeys_updateAll {α : Type} (l m : List (String × α))
    (a : String) :
    a ∈ dictKeys (updateAll l m) ↔ a ∈ dictKeys l ∨ a ∈ dictKeys m := by
  induction m generalizing l with
  | nil => simp [updateAll, dictKeys]
  | cons hd tl ih =>
    obtain ⟨k1, v1⟩ := hd
    rw [updateAll_cons, ih, mem_dictKeys_upsert]
    simp only [dictKeys, List.map_cons, List.mem_cons]
    tauto

theorem dictKeys_append {α : Type} (l₁ l₂ : List (String × α)) :
    dictKeys (l₁ ++ l₂) = dictKeys l₁ ++ dictKeys l₂ := by
  simp [dictKeys]

/-! ### Claim C1 -/

/-- The number of outbound HTTP requests a prepared dispatch issues: one
for a `send`, zero for every early error. -/
def outboundRequests : PrepResult → Nat
  | .send _ _ _ _ _ => 1
  | _ => 0

/-- C1: if no downstream username/password pair is configured (either
credential absent or empty, i.e. `""`), then for every tool name and every
argument mapping, dispatch fails immediately with the missing-credentials
error and performs zero outbound network calls. -/
theorem C1_missing_credentials (spec : OpenAPISpec)
    (api_username api_password : String) (name : String)
    (arguments : List (String × String))
    (h : api_username = "" ∨ api_password = "") :
    call_tool spec api_username api_password name arguments =
        .missingCredentials ∧
      outboundRequests
        (call_tool spec api_username api_password name arguments) = 0 := by
  have hauth : get_auth_header api_username api_password = "" := by
    rcases h with h | h <;> simp [get_auth_header, h]
  simp [call_tool, hauth, outboundRequests]

theorem C1_missing_credentials_witness :
    call_tool ⟨[("/entries", [("get", ⟨some "g", none, none, none, none⟩)])],
        ⟨[]⟩⟩ "" "secret" "g" [("path_id", "1")] = .missingCredentials ∧
      outboundRequests
        (call_tool ⟨[("/entries", [("get", ⟨some "g", none, none, none,
            none⟩)])], ⟨[]⟩⟩ "" "secret" "g" [("path_id", "1")]) = 0 :=
  C1_missing_credentials _ "" "secret" "g" _ (Or.inl rfl)

/-! ### Claim C8 -/

/-- C8: every dispatch whose downstream response has status 204 produces
exactly the fixed success payload
`\x7bstatus: "success", message: "Resource deleted or no content returned"\x7d`. -/
theorem C8_status_204 (r : DownResponse) (h : r.statusCode = 204) :
    handleResponse r = .success (JVal.obj [("status", .str "success"),
      ("message", .str "Resource deleted or no content returned")]) := by
  simp [handleResponse, h]

theorem C8_status_204_witness :
    handleResponse ⟨204, none, "", "", none⟩ =
      .success (JVal.obj [("status", .str "success"),
        ("message", .str "Resource deleted or no content returned")]) :=
  C8_status_204 ⟨204, none, "", "", none⟩ rfl

/-! ### Credential and lookup lemmas -/

theorem utf8Bytes_ne_nil (c : Char) : utf8Bytes c ≠ [] := by
  simp only [utf8Bytes]
  split_ifs <;> simp

theorem strBytes_ne_nil (s : String) (h : s ≠ "") : strBytes s ≠ [] := by
  obtain ⟨data⟩ := s
  cases data with
  | nil => exact absurd rfl h
  | cons c cs =>
    simp only [strBytes, List.map_cons, List.flatten_cons, ne_eq,
      List.append_eq_nil]
    intro hc
    exact utf8Bytes_ne_nil c hc.1

theorem b64groups_ne_nil (bs : List Nat) (h : bs ≠ []) :
    b64groups bs ≠ [] := by
  match bs with
  | [] => exact absurd rfl h
  | [b1] => simp [b64groups]
  | [b1, b2] => simp [b64groups]
  | b1 :: b2 :: b3 :: rest => simp [b64groups]

theorem string_mk_ne_empty (l : List Char) (h : l ≠ []) :
    (⟨l⟩ : String) ≠ "" := by
  intro hc
  apply h
  have : (⟨l⟩ : String).data = ("" : String).data := by rw [hc]
  exact this

theorem append_str_ne_empty (u p : String) : u ++ ":" ++ p ≠ "" := by
  intro hc
  have hdata : (u ++ ":" ++ p).data = [] := by rw [hc]
  rw [String.data_append, String.data_append] at hdata
  have hmid : (":" : String).data = [] :=
    (List.append_eq_nil.mp (List.append_eq_nil.mp hdata).1).2
  exact absurd hmid (by decide)

theorem get_auth_header_ne_empty (u p : String) (hu : u ≠ "")
    (hp : p ≠ "") : get_auth_header u p ≠ "" := by
  unfold get_auth_header
  rw [if_pos ⟨hu, hp⟩]
  exact string_mk_ne_empty _
    (b64groups_ne_nil _ (strBytes_ne_nil _ (append_str_ne_empty u p)))

theorem findOpInItem_eq_none (name : String)
    (item : List (String × Operation))
    (h : ∀ mo ∈ item, mo.2.operationId ≠ some name) :
    findOpInItem name item = none := by
  induction item with
  | nil => rfl
  | cons hd tl ih =>
    obtain ⟨m, op⟩ := hd
    have hne : op.operationId ≠ some name := h (m, op) (List.mem_cons_self _ _)
    have hb : (op.operationId == some name) = false :=
      beq_eq_false_iff_ne.mpr hne
    simp only [findOpInItem, hb, Bool.and_false, if_false, Bool.false_eq_true]
    exact ih (fun mo hmo => h mo (List.mem_cons_of_mem _ hmo))

theorem findOperation_eq_none (name : String)
    (paths : List (String × List (String × Operation)))
    (h : ∀ pi ∈ paths, ∀ mo ∈ pi.2, mo.2.operationId ≠ some name) :
    findOperation name paths none = none := by
  induction paths with
  | nil => rfl
  | cons hd tl ih =>
    obtain ⟨path, item⟩ := hd
    have hitem : findOpInItem name item = none :=
      findOpInItem_eq_none name item
        (h (path, item) (List.mem_cons_self _ _))
    simp only [findOperation, hitem]
    exact ih (fun pi hpi => h pi (List.mem_cons_of_mem _ hpi))

/-! ### Claim C7 -/

/-- C7 counterexample: with no credentials configured and a tool name that
matches no `operationId`, dispatch reports missing credentials, not
tool-not-found — the credentials check of `call_tool` (lines 199-204)
precedes the operation lookup (lines 206-228), contrary to the claimed
step order. -/
theorem C7_counterexample :
    call_tool ⟨[("/entries", [("get", ⟨some "g", none, none, none, none⟩)])],
        ⟨[]⟩⟩ "" "" "nope" [] = .missingCredentials ∧
      call_tool ⟨[("/entries", [("get", ⟨some "g", none, none, none,
          none⟩)])], ⟨[]⟩⟩ "" "" "nope" [] ≠ .toolNotFound := by
  refine ⟨rfl, ?_⟩
  intro h
  rw [show call_tool ⟨[("/entries", [("get", ⟨some "g", none, none, none,
      none⟩)])], ⟨[]⟩⟩ "" "" "nope" [] = .missingCredentials from rfl] at h
  exact PrepResult.noConfusion h

/-- C7 amended: the credentials check runs first; when both credentials
are configured (non-empty) and the tool name equals no operation's
`operationId`, dispatch returns the tool-not-found error. -/
theorem C7_amended_lookup_after_credentials (spec : OpenAPISpec)
    (u p name : String) (args : List (String × String))
    (hu : u ≠ "") (hp : p ≠ "")
    (h : ∀ pi ∈ spec.paths, ∀ mo ∈ pi.2, mo.2.operationId ≠ some name) :
    call_tool spec u p name args = .toolNotFound := by
  have hauth := get_auth_header_ne_empty u p hu hp
  simp only [call_tool, if_neg hauth, findOperation_eq_none name spec.paths h]

theorem C7_amended_witness :
    call_tool ⟨[("/entries", [("get", ⟨some "g", none, none, none, none⟩)])],
        ⟨[]⟩⟩ "u" "p" "nope" [] = .toolNotFound :=
  C7_amended_lookup_after_credentials _ "u" "p" "nope" []
    (by decide) (by decide)
    (by
      intro pi hpi mo hmo
      simp only [List.mem_cons, List.not_mem_nil, or_false] at hpi
      subst hpi
      simp only [List.mem_cons, List.not_mem_nil, or_false] at hmo
      subst hmo
      simp)

/-! ### Claim C2 -/

/-- C2 counterexample: a GET operation dispatched with a non-empty
`body_`-prefixed argument splits into a non-empty `bodyFields` mapping, yet
the outbound request carries no body — lines 255-256 issue GET without a
`json=` argument regardless of `body_data`. -/
theorem C2_counterexample :
    (splitArguments [("body_x", "1")]).2.2 = [("x", "1")] ∧
      call_tool ⟨[("/entries", [("get", ⟨some "g", none, none, none,
          none⟩)])], ⟨[]⟩⟩ "u" "p" "g" [("body_x", "1")] =
        .send "GET" "https://your-WYGIWYH.com/entries"
          [("Authorization", "Basic dTpw"), ("Accept", "application/json")]
          [] none :=
  ⟨rfl, rfl⟩

/-- C2 amended: for POST, PUT and PATCH dispatches the outbound request
carries the split `bodyFields` as a JSON body with the `Content-Type`
header set to JSON exactly when `bodyFields` is non-empty, and no body
otherwise; GET and DELETE requests never carry a body, whatever
`bodyFields` contains. -/
theorem C2_amended_body_by_method (spec : OpenAPISpec)
    (u p name : String) (args : List (String × String))
    (method url : String) (hdrs qp : List (String × String))
    (body : Option (List (String × String)))
    (h : call_tool spec u p name args = .send method url hdrs qp body) :
    ((method = "POST" ∨ method = "PUT" ∨ method = "PATCH") →
      (if (splitArguments args).2.2.isEmpty then body = none
       else body = some (splitArguments args).2.2 ∧
         dictGet hdrs "Content-Type" = some "application/json")) ∧
    ((method = "GET" ∨ method = "DELETE") → body = none) := by
  have hct : ∀ v : String, dictGet
      (upsert [("Authorization", v), ("Accept", "application/json")]
        "Content-Type" "application/json") "Content-Type" =
      some "application/json" := by
    intro v
    rw [dictGet_upsert]
    simp
  simp only [call_tool] at h
  split at h
  · exact PrepResult.noConfusion h
  · split at h
    · exact PrepResult.noConfusion h
    · rename_i found path method' op heq
      split at h
      · exact PrepResult.noConfusion h
      · split at h
        · -- GET
          injection h with h1 h2 h3 h4 h5
          subst h1; subst h5
          refine ⟨fun hm => ?_, fun _ => rfl⟩
          rcases hm with hm | hm | hm <;> exact absurd hm (by decide)
        · split at h
          · split at h
            · -- POST with body
              rename_i hne
              injection h with h1 h2 h3 h4 h5
              subst h1; subst h5; subst h3
              refine ⟨fun _ => ?_, fun hm => ?_⟩
              · rw [if_neg (by simpa using hne)]
                exact ⟨rfl, hct _⟩
              · rcases hm with hm | hm <;> exact absurd hm (by decide)
            · -- POST without body
              rename_i hne
              injection h with h1 h2 h3 h4 h5
              subst h1; subst h5
              refine ⟨fun _ => ?_, fun hm => ?_⟩
              · rw [if_pos (by simpa using hne)]
              · rcases hm with hm | hm <;> exact absurd hm (by decide)
          · split at h
            · split at h
              · -- PUT with body
                rename_i hne
                injection h with h1 h2 h3 h4 h5
                subst h1; subst h5; subst h3
                refine ⟨fun _ => ?_, fun hm => ?_⟩
                · rw [if_neg (by simpa using hne)]
                  exact ⟨rfl, hct _⟩
                · rcases hm with hm | hm <;> exact absurd hm (by decide)
              · -- PUT without body
                rename_i hne
                injection h with h1 h2 h3 h4 h5
                subst h1; subst h5
                refine ⟨fun _ => ?_, fun hm => ?_⟩
                · rw [if_pos (by simpa using hne)]
                · rcases hm with hm | hm <;> exact absurd hm (by decide)
            · split at h
              · split at h
                · -- PATCH with body
                  rename_i hne
                  injection h with h1 h2 h3 h4 h5
                  subst h1; subst h5; subst h3
                  refine ⟨fun _ => ?_, fun hm => ?_⟩
                  · rw [if_neg (by simpa using hne)]
                    exact ⟨rfl, hct _⟩
                  · rcases hm with hm | hm <;> exact absurd hm (by decide)
                · -- PATCH without body
                  rename_i hne
                  injection h with h1 h2 h3 h4 h5
                  subst h1; subst h5
                  refine ⟨fun _ => ?_, fun hm => ?_⟩
                  · rw [if_pos (by simpa using hne)]
                  · rcases hm with hm | hm <;> exact absurd hm (by decide)
              · split at h
                · -- DELETE
                  injection h with h1 h2 h3 h4 h5
                  subst h1; subst h5
                  refine ⟨fun hm => ?_, fun _ => rfl⟩
                  rcases hm with hm | hm | hm <;> exact absurd hm (by decide)
                · exact PrepResult.noConfusion h

theorem C2_amended_witness :
    ((("POST" : String) = "POST" ∨ ("POST" : String) = "PUT" ∨
        ("POST" : String) = "PATCH") →
      (if (splitArguments [("body_n", "rent")]).2.2.isEmpty then
         (some [("n", "rent")] :
            Option (List (String × String))) = none
       else (some [("n", "rent")] :
            Option (List (String × String))) =
              some (splitArguments [("body_n", "rent")]).2.2 ∧
         dictGet [("Authorization", "Basic dTpw"),
            ("Accept", "application/json"),
            ("Content-Type", "application/json")] "Content-Type" =
           some "application/json")) ∧
    ((("POST" : String) = "GET" ∨ ("POST" : String) = "DELETE") →
      (some [("n", "rent")] : Option (List (String × String))) = none) :=
  C2_amended_body_by_method
    ⟨[("/entries", [("post", ⟨some "mk", none, none, none, none⟩)])], ⟨[]⟩⟩
    "u" "p" "mk" [("body_n", "rent")] "POST"
    "https://your-WYGIWYH.com/entries"
    [("Authorization", "Basic dTpw"), ("Accept", "application/json"),
      ("Content-Type", "application/json")]
    [] (some [("n", "rent")]) rfl

/-! ### Claim C6 -/

/-- Re-prefix each bucket entry's key with the bucket's namespace prefix:
the right inverse the claim asserts for the splitting convention. -/
def rejoinKeys
    (t : List (String × String) × List (String × String) ×
      List (String × String)) : List String :=
  t.1.map (fun kv => "path_" ++ kv.1) ++
    t.2.1.map (fun kv => "query_" ++ kv.1) ++
    t.2.2.map (fun kv => "body_" ++ kv.1)

theorem string_data_eq (a b : String) (h : a.data = b.data) : a = b := by
  obtain ⟨da⟩ := a
  obtain ⟨db⟩ := b
  cases h
  rfl

/-- Restoring a verified prefix after `strDrop` recovers the key. -/
theorem prefix_restore (k p : String) (h : strStartsWith k p = true) :
    p ++ strDrop k p.data.length = k := by
  have hpre : p.data <+: k.data := by
    rw [← List.isPrefixOf_iff_prefix]
    exact h
  have hsplit : p.data ++ List.drop p.data.length k.data = k.data :=
    List.prefix_iff_eq_append.mp hpre
  apply string_data_eq
  rw [String.data_append]
  exact hsplit

theorem mem_map_prefix_upsert (l : List (String × String))
    (pfx k a : String) (v : String) :
    a ∈ (upsert l k v).map (fun kv => pfx ++ kv.1) ↔
      a ∈ l.map (fun kv => pfx ++ kv.1) ∨ a = pfx ++ k := by
  have hiff := mem_dictKeys_upsert l k
  constructor
  · intro h
    rcases List.mem_map.mp h with ⟨kv, hkv, rfl⟩
    have : kv.1 ∈ dictKeys (upsert l k v) :=
      List.mem_map.mpr ⟨kv, hkv, rfl⟩
    rcases (mem_dictKeys_upsert l k kv.1 v).mp this with hm | hm
    · left
      rcases List.mem_map.mp hm with ⟨kv', hkv', he⟩
      exact List.mem_map.mpr ⟨kv', hkv', by rw [he]⟩
    · right
      rw [hm]
  · rintro (h | rfl)
    · rcases List.mem_map.mp h with ⟨kv, hkv, rfl⟩
      have : kv.1 ∈ dictKeys (upsert l k v) :=
        (mem_dictKeys_upsert l k kv.1 v).mpr
          (Or.inl (List.mem_map.mpr ⟨kv, hkv, rfl⟩))
      rcases List.mem_map.mp this with ⟨kv', hkv', he⟩
      exact List.mem_map.mpr ⟨kv', hkv', by rw [he]⟩
    · have : k ∈ dictKeys (upsert l k v) :=
        (mem_dictKeys_upsert l k k v).mpr (Or.inr rfl)
      rcases List.mem_map.mp this with ⟨kv', hkv', he⟩
      exact List.mem_map.mpr ⟨kv', hkv', by rw [he]⟩

/-- Key-set invariant of the splitting fold: over prefixed-only argument
keys, the rejoined key set grows by exactly the processed keys. -/
theorem splitFold_keys (args : List (String × String)) :
    ∀ acc,
    (∀ kv ∈ args, strStartsWith kv.1 "path_" = true ∨
      strStartsWith kv.1 "query_" = true ∨
      strStartsWith kv.1 "body_" = true) →
    ∀ a, a ∈ rejoinKeys (args.foldl splitStep acc) ↔
      a ∈ rejoinKeys acc ∨ a ∈ dictKeys args := by
  induction args with
  | nil => intro acc _ a; simp [dictKeys]
  | cons hd tl ih =>
    intro acc hpref a
    obtain ⟨k, v⟩ := hd
    rw [List.foldl_cons]
    rw [ih (splitStep acc (k, v))
      (fun kv hkv => hpref kv (List.mem_cons_of_mem _ hkv)) a]
    have hk := hpref (k, v) (List.mem_cons_self _ _)
    have hmem : a ∈ rejoinKeys (splitStep acc (k, v)) ↔
        a ∈ rejoinKeys acc ∨ a = k := by
      rcases hp : strStartsWith k "path_" with _ | _
      · rcases hq : strStartsWith k "query_" with _ | _
        · rcases hb : strStartsWith k "body_" with _ | _
          · rcases hk with h | h | h
            · rw [hp] at h; exact absurd h (by decide)
            · rw [hq] at h; exact absurd h (by decide)
            · rw [hb] at h; exact absurd h (by decide)
          · have hrestore : "body_" ++ strDrop k 5 = k := by
              have := prefix_restore k "body_" hb
              rwa [show ("body_" : String).data.length = 5 from rfl] at this
            simp only [splitStep, hp, hq, hb, if_false, if_true,
              Bool.false_eq_true, rejoinKeys, List.mem_append,
              mem_map_prefix_upsert, hrestore]
            tauto
        · have hrestore : "query_" ++ strDrop k 6 = k := by
            have := prefix_restore k "query_" hq
            rwa [show ("query_" : String).data.length = 6 from rfl] at this
          simp only [splitStep, hp, hq, if_false, if_true,
            Bool.false_eq_true, rejoinKeys, List.mem_append,
            mem_map_prefix_upsert, hrestore]
          tauto
      · have hrestore : "path_" ++ strDrop k 5 = k := by
          have := prefix_restore k "path_" hp
          rwa [show ("path_" : String).data.length = 5 from rfl] at this
        simp only [splitStep, hp, if_true, rejoinKeys, List.mem_append,
          mem_map_prefix_upsert, hrestore]
        tauto
    rw [hmem]
    simp only [dictKeys, List.map_cons, List.mem_cons]
    tauto

/-- C6 counterexample: a key with no recognized prefix is silently
dropped, so splitting then re-prefixing loses it — the round trip does not
recover the original key set for every argument mapping. -/
theorem C6_counterexample :
    rejoinKeys (splitArguments [("foo", "1")]) = [] ∧
      dictKeys [("foo", "1")] = ["foo"] :=
  ⟨rfl, rfl⟩

/-- C6 amended: for every argument mapping whose keys all carry one of the
three namespace prefixes `path_`/`query_`/`body_`, splitting and then
re-prefixing each bucket entry recovers exactly the original key set. -/
theorem C6_amended_roundtrip (args : List (String × String))
    (hpref : ∀ kv ∈ args, strStartsWith kv.1 "path_" = true ∨
      strStartsWith kv.1 "query_" = true ∨
      strStartsWith kv.1 "body_" = true) (a : String) :
    a ∈ rejoinKeys (splitArguments args) ↔ a ∈ dictKeys args := by
  rw [splitArguments, splitFold_keys args ([], [], []) hpref a]
  simp [rejoinKeys]

theorem C6_amended_witness :
    ("path_a" ∈ rejoinKeys (splitArguments
        [("path_a", "1"), ("query_b", "2"), ("body_c", "3")]) ↔
      "path_a" ∈ dictKeys
        [("path_a", "1"), ("query_b", "2"), ("body_c", "3")]) :=
  C6_amended_roundtrip
    [("path_a", "1"), ("query_b", "2"), ("body_c", "3")]
    (by decide) "path_a"

/-! ### Claim C9 -/

/-- First `oneOf` alternative of the C9 counterexample fragment. -/
def C9oneOfFirst : Fragment := { Fragment.emptyDict with type := some "string" }

/-- A fragment carrying both `allOf` and `oneOf`: the resolver checks
`allOf` first (line 78) and returns its merge, never reading `oneOf`. -/
def C9frag : Fragment :=
  { Fragment.emptyDict with
      allOf := some [{ Fragment.emptyDict with type := some "number" }]
      oneOf := some [C9oneOfFirst] }

/-- C9 counterexample: for a Schema Fragment that also carries `allOf`,
resolution does not return the first `oneOf` alternative — the `allOf`
branch wins, so the claim fails as universally stated. -/
theorem C9_counterexample :
    (convert_openapi_to_json_schema 2 C9frag ⟨[]⟩).map Fragment.type =
        some (some "number") ∧
      C9oneOfFirst.type = some "string" ∧
      convert_openapi_to_json_schema 2 C9frag ⟨[]⟩ ≠ some C9oneOfFirst := by
  refine ⟨rfl, rfl, ?_⟩
  intro h
  exact absurd (congrArg (Option.map Fragment.type) h) (by decide)

/-- C9 amended: for every Schema Fragment whose resolution reaches the
`oneOf` branch (no `$ref` key and no `allOf` key), resolution returns the
first alternative — verbatim, and for every tail `rest`, so the second and
later alternatives never influence the result. -/
theorem C9_amended_first_alternative (fuel : Nat) (comps : Components)
    (f : Fragment) (a : Fragment) (rest : List Fragment)
    (h1 : f.ref = none) (h2 : f.allOf = none)
    (h3 : f.oneOf = some (a :: rest)) :
    convert_openapi_to_json_schema (fuel + 1) f comps = some a := by
  have hne : f.isEmptyDict = false := by
    simp [Fragment.isEmptyDict, h3]
  have href : refOutcome f comps = .absent := by
    simp [refOutcome, h1]
  simp [convert_openapi_to_json_schema, convertTail, hne, href, h2, h3]

theorem C9_amended_witness :
    convert_openapi_to_json_schema 1
      { Fragment.emptyDict with
          oneOf := some [{ Fragment.emptyDict with type := some "string" },
            { Fragment.emptyDict with type := some "number" }] } ⟨[]⟩ =
      some { Fragment.emptyDict with type := some "string" } :=
  C9_amended_first_alternative 0 ⟨[]⟩ _ _ _ rfl rfl rfl

/-! ### Merge lemmas for Claim C4 -/

theorem upsert_ne_nil {α : Type} (l : List (String × α)) (k : String)
    (v : α) : upsert l k v ≠ [] := by
  cases l with
  | nil => simp [upsert]
  | cons hd tl =>
    obtain ⟨k0, v0⟩ := hd
    simp only [upsert]
    split <;> simp

theorem updateAll_ne_nil {α : Type} (l m : List (String × α))
    (h : l ≠ [] ∨ m ≠ []) : updateAll l m ≠ [] := by
  induction m generalizing l with
  | nil =>
    rcases h with h | h
    · exact h
    · exact absurd rfl h
  | cons x rest ih =>
    rw [show updateAll l (x :: rest) = updateAll (upsert l x.1 x.2) rest
          from rfl]
    exact ih (upsert l x.1 x.2) (Or.inl (upsert_ne_nil l x.1 x.2))

theorem orOpt_none_right {α : Type} (a : Option α) : orOpt a none = a := by
  cases a <;> rfl

theorem foldl_merge_split (cs : List Fragment)
    (p : List (String × Fragment)) (r : List String) (t : Option String) :
    cs.foldl
      (fun (st : List (String × Fragment) × List String × Option String) c =>
        (mergePropsStep st.1 c, mergeReqStep st.2.1 c,
          mergeTypeStep st.2.2 c)) (p, r, t) =
    (cs.foldl mergePropsStep p, cs.foldl mergeReqStep r,
      cs.foldl mergeTypeStep t) := by
  induction cs generalizing p r t with
  | nil => rfl
  | cons c cs ih => simp [List.foldl_cons, ih]

theorem foldl_mergeProps (cs : List Fragment)
    (l : List (String × Fragment)) :
    cs.foldl mergePropsStep l =
      updateAll l ((cs.map (fun c => c.properties.getD [])).flatten) := by
  induction cs generalizing l with
  | nil => rfl
  | cons c cs ih =>
    rw [List.foldl_cons, ih, List.map_cons, List.flatten_cons,
      updateAll_append]
    congr 1
    cases hc : c.properties <;> simp [mergePropsStep, hc, updateAll]

theorem foldl_mergeReq (cs : List Fragment) (r : List String) :
    cs.foldl mergeReqStep r =
      r ++ (cs.map (fun c => c.required.getD [])).flatten := by
  induction cs generalizing r with
  | nil => simp
  | cons c cs ih =>
    rw [List.foldl_cons, ih, List.map_cons, List.flatten_cons]
    cases hc : c.required <;> simp [mergeReqStep, hc]

theorem foldl_mergeType_sticky (cs : List Fragment) (t : String)
    (h : t ≠ "") : cs.foldl mergeTypeStep (some t) = some t := by
  induction cs with
  | nil => rfl
  | cons c cs ih =>
    rw [List.foldl_cons]
    have hstep : mergeTypeStep (some t) c = some t := by
      cases hc : c.type <;> simp [mergeTypeStep, hc, h]
    rw [hstep, ih]

/-- The claim's description of the merged type: the first non-empty
resolved sub-schema `type` in order (spec §4.1). -/
def firstNonEmptyType (cs : List Fragment) : Option String :=
  cs.findSome? (fun c =>
    match c.type with
    | some t => if t = "" then none else some t
    | none => none)

theorem normType_foldl (cs : List Fragment) :
    ∀ t0, (t0 = none ∨ t0 = some "") →
    normType (cs.foldl mergeTypeStep t0) =
      (firstNonEmptyType cs).getD "object" := by
  induction cs with
  | nil => rintro t0 (rfl | rfl) <;> simp [normType, firstNonEmptyType]
  | cons c cs ih =>
    rintro t0 ht0
    cases hc : c.type with
    | none =>
      rw [List.foldl_cons]
      have hstep : mergeTypeStep t0 c = t0 := by simp [mergeTypeStep, hc]
      rw [hstep, ih t0 ht0]
      simp [firstNonEmptyType, List.findSome?_cons, hc]
    | some ty =>
      have hstep : mergeTypeStep t0 c = some ty := by
        rcases ht0 with rfl | rfl <;> simp [mergeTypeStep, hc]
      rw [List.foldl_cons, hstep]
      by_cases hty : ty = ""
      · subst hty
        rw [ih (some "") (Or.inr rfl)]
        simp [firstNonEmptyType, List.findSome?_cons, hc]
      · rw [foldl_mergeType_sticky cs ty hty]
        simp [normType, hty, firstNonEmptyType, List.findSome?_cons, hc]

theorem mergeAllOf_properties (cs : List Fragment) :
    (mergeAllOf cs).properties =
      if (cs.foldl mergePropsStep []).isEmpty then none
      else some (cs.foldl mergePropsStep []) := by
  simp only [mergeAllOf]
  rw [foldl_merge_split]

theorem mergeAllOf_required (cs : List Fragment) :
    (mergeAllOf cs).required =
      if (cs.foldl mergeReqStep []).isEmpty then none
      else some (cs.foldl mergeReqStep []).dedup := by
  simp only [mergeAllOf]
  rw [foldl_merge_split]

theorem mergeAllOf_type (cs : List Fragment) :
    (mergeAllOf cs).type = some (normType (cs.foldl mergeTypeStep none)) := by
  simp only [mergeAllOf]
  rw [foldl_merge_split]

/-! ### Claim C4 -/

/-- A fragment carrying both a resolvable `$ref` and `allOf`: the `$ref`
branch (line 71) returns first, so the `allOf` merge never happens. -/
def C4frag : Fragment :=
  { Fragment.emptyDict with
      ref := some "#/components/schemas/X"
      allOf := some [{ Fragment.emptyDict with type := some "number" }] }

def C4comps : Components :=
  ⟨[("X", { Fragment.emptyDict with type := some "string" })]⟩

/-- C4 counterexample: for a Schema Fragment that also carries a
resolvable `$ref`, resolution substitutes the referenced schema and never
performs the claimed `allOf` merge: merging the resolved sub-schemas would
give type `"number"`, but resolution yields type `"string"`. -/
theorem C4_counterexample :
    ((C4frag.allOf.getD []).mapM
        (fun s => convert_openapi_to_json_schema 2 s C4comps)).map
        (fun cs => (mergeAllOf cs).type) = some (some "number") ∧
      (convert_openapi_to_json_schema 3 C4frag C4comps).map Fragment.type =
        some (some "string") ∧
      convert_openapi_to_json_schema 3 C4frag C4comps ≠
        ((C4frag.allOf.getD []).mapM
          (fun s => convert_openapi_to_json_schema 2 s C4comps)).map
          mergeAllOf := by
  refine ⟨rfl, rfl, ?_⟩
  intro h
  exact absurd (congrArg (Option.map Fragment.type) h) (by decide)

/-- C4 amended: for every Schema Fragment with an `allOf` list whose
`$ref` branch does not fire (no `$ref`, or one that does not name a known
component), resolution resolves every sub-schema and merges them:
the merged properties are the union of the resolved sub-schemas'
properties with a later sub-schema overwriting an earlier one on name
collision (the value at each key is the last binding in sub-schema order),
the merged required list is the de-duplicated union of the resolved
required lists, and the merged type is the first non-empty resolved
sub-schema type in order, defaulting to `"object"`. -/
theorem C4_amended_allOf_merge (fuel : Nat) (comps : Components)
    (f : Fragment) (subs cs : List Fragment)
    (hr : refOutcome f comps = .absent ∨ refOutcome f comps = .fallthrough)
    (ha : f.allOf = some subs)
    (hcs : subs.mapM
      (fun s => convert_openapi_to_json_schema fuel s comps) = some cs) :
    convert_openapi_to_json_schema (fuel + 1) f comps =
        some (mergeAllOf cs) ∧
      (∀ k, dictGet ((mergeAllOf cs).properties.getD []) k =
        dictGet ((cs.map (fun c => c.properties.getD [])).flatten).reverse
          k) ∧
      (∀ n, n ∈ (mergeAllOf cs).required.getD [] ↔
        ∃ c ∈ cs, n ∈ c.required.getD []) ∧
      ((mergeAllOf cs).required.getD []).Nodup ∧
      (mergeAllOf cs).type = some ((firstNonEmptyType cs).getD "object") := by
  have hne : f.isEmptyDict = false := by
    simp [Fragment.isEmptyDict, ha]
  have hcs' : List.mapM.loop
      (fun s => convert_openapi_to_json_schema fuel s comps) subs [] =
      some cs := hcs
  refine ⟨?_, ?_, ?_, ?_, ?_⟩
  · rcases hr with hr | hr <;>
      simp [convert_openapi_to_json_schema, convertTail, hne, hr, ha, hcs,
        hcs']
  · intro k
    rw [mergeAllOf_properties, foldl_mergeProps]
    cases hP : ((cs.map (fun c => c.properties.getD [])).flatten) with
    | nil => simp [updateAll, dictGet]
    | cons x rest =>
      have hnn : updateAll [] (x :: rest) ≠ [] :=
        updateAll_ne_nil [] (x :: rest) (Or.inr (by simp))
      rw [if_neg (by simpa [List.isEmpty_iff] using hnn)]
      simp only [Option.getD_some]
      rw [dictGet_updateAll]
      exact orOpt_none_right _
  · intro n
    rw [mergeAllOf_required, foldl_mergeReq, List.nil_append]
    cases hR : ((cs.map (fun c => c.required.getD [])).flatten) with
    | nil =>
      simp only [List.isEmpty_nil, if_true, Option.getD_none]
      constructor
      · intro hn
        exact absurd hn (List.not_mem_nil n)
      · rintro ⟨c, hc, hn⟩
        have : n ∈ (cs.map (fun c => c.required.getD [])).flatten :=
          List.mem_flatten.mpr ⟨c.required.getD [],
            List.mem_map.mpr ⟨c, hc, rfl⟩, hn⟩
        rw [hR] at this
        exact absurd this (List.not_mem_nil n)
    | cons x rest =>
      rw [if_neg (by simp)]
      simp only [Option.getD_some, List.mem_dedup]
      rw [← hR]
      constructor
      · intro hn
        rcases List.mem_flatten.mp hn with ⟨l, hl, hnl⟩
        rcases List.mem_map.mp hl with ⟨c, hc, rfl⟩
        exact ⟨c, hc, hnl⟩
      · rintro ⟨c, hc, hn⟩
        exact List.mem_flatten.mpr ⟨c.required.getD [],
          List.mem_map.mpr ⟨c, hc, rfl⟩, hn⟩
  · rw [mergeAllOf_required]
    cases hR : ((cs.foldl mergeReqStep [])) with
    | nil => simp
    | cons x rest =>
      rw [if_neg (by simp)]
      simp only [Option.getD_some]
      exact List.nodup_dedup _
  · rw [mergeAllOf_type, normType_foldl cs none (Or.inl rfl)]

def C4wSub1 : Fragment :=
  { Fragment.emptyDict with
      type := some "string"
      properties := some [("a", { Fragment.emptyDict with
        type := some "integer" })]
      required := some ["a"] }

def C4wSub2 : Fragment :=
  { Fragment.emptyDict with
      properties := some [("a", { Fragment.emptyDict with
        type := some "number" }), ("b", Fragment.emptyDict)]
      required := some ["a", "b"] }

def C4wFrag : Fragment :=
  { Fragment.emptyDict with allOf := some [C4wSub1, C4wSub2] }

theorem C4_amended_witness :
    (convert_openapi_to_json_schema 3 C4wFrag ⟨[]⟩ =
      some (mergeAllOf
        ((([C4wSub1, C4wSub2].mapM
          (fun s => convert_openapi_to_json_schema 2 s ⟨[]⟩)).getD [])))) ∧
    (mergeAllOf
        ((([C4wSub1, C4wSub2].mapM
          (fun s => convert_openapi_to_json_schema 2 s ⟨[]⟩)).getD []))).type =
      some ((firstNonEmptyType
        ((([C4wSub1, C4wSub2].mapM
          (fun s => convert_openapi_to_json_schema 2 s ⟨[]⟩)).getD []))).getD
        "object") := by
  have h := C4_amended_allOf_merge 2 ⟨[]⟩ C4wFrag [C4wSub1, C4wSub2]
    (([C4wSub1, C4wSub2].mapM
      (fun s => convert_openapi_to_json_schema 2 s ⟨[]⟩)).getD [])
    (Or.inl rfl) rfl rfl
  exact ⟨h.1, h.2.2.2.2⟩

/-! ### Catalog-name lemmas -/

/-- The tool names the builder produces, read directly off the document:
for every path and every method among the five verbs, the operation's
`operationId` with fallback `"<method>_<path>"`, in document order. -/
def toolNames (spec : OpenAPISpec) : List String :=
  (spec.paths.map (fun pi =>
    (pi.2.filter (fun mo => httpMethods.contains (strUpper mo.1))).map
      (fun mo => mo.2.operationId.getD (mo.1 ++ "_" ++ pi.1)))).flatten

theorem buildTool_name (fuel : Nat) (comps : Components)
    (path method : String) (op : Operation) (t : Tool)
    (h : buildTool fuel comps path method op = some t) :
    t.name = op.operationId.getD (method ++ "_" ++ path) := by
  simp only [buildTool] at h
  split at h
  · exact Option.noConfusion h
  · split at h
    · exact Option.noConfusion h
    · injection h with h'
      rw [← h']

theorem genPathItem_names (fuel : Nat) (comps : Components) (path : String)
    (item : List (String × Operation)) (ts : List Tool)
    (h : genPathItem fuel comps path item = some ts) :
    ts.map Tool.name =
      (item.filter (fun mo => httpMethods.contains (strUpper mo.1))).map
        (fun mo => mo.2.operationId.getD (mo.1 ++ "_" ++ path)) := by
  induction item generalizing ts with
  | nil =>
    injection h with h'
    rw [← h']
    rfl
  | cons hd rest ih =>
    obtain ⟨m, op⟩ := hd
    simp only [genPathItem] at h
    split at h
    · rename_i hcond
      split at h
      · exact Option.noConfusion h
      · rename_i t hbuild
        split at h
        · exact Option.noConfusion h
        · rename_i ts' hrest
          injection h with h'
          rw [← h']
          rw [List.map_cons, ih ts' hrest,
            buildTool_name fuel comps path m op t hbuild]
          rw [List.filter_cons, if_pos (by simpa using hcond), List.map_cons]
    · rename_i hcond
      rw [ih ts h, List.filter_cons,
        if_neg (by simpa using hcond)]

theorem genPaths_names (fuel : Nat) (comps : Components)
    (paths : List (String × List (String × Operation))) (ts : List Tool)
    (h : genPaths fuel comps paths = some ts) :
    ts.map Tool.name =
      (paths.map (fun pi =>
        (pi.2.filter (fun mo => httpMethods.contains (strUpper mo.1))).map
          (fun mo => mo.2.operationId.getD (mo.1 ++ "_" ++ pi.1)))).flatten := by
  induction paths generalizing ts with
  | nil =>
    injection h with h'
    rw [← h']
    rfl
  | cons hd rest ih =>
    obtain ⟨path, item⟩ := hd
    simp only [genPaths] at h
    split at h
    · exact Option.noConfusion h
    · rename_i ts1 hitem
      split at h
      · exact Option.noConfusion h
      · rename_i more hmore
        injection h with h'
        rw [← h']
        rw [List.map_append, List.map_cons, List.flatten_cons,
          genPathItem_names fuel comps path item ts1 hitem, ih more hmore]

theorem generate_names (fuel : Nat) (spec : OpenAPISpec) (ts : List Tool)
    (h : generate_tools_from_openapi fuel spec = some ts) :
    ts.map Tool.name = toolNames spec :=
  genPaths_names fuel spec.components spec.paths ts h

/-! ### Claim C5 -/

/-- C5: for an OpenAPI document in which every (HTTP-verb) operation
carries an `operationId` and the resulting tool names are pairwise
distinct, the built catalog contains exactly one tool named with each
`operationId`; and two successive catalog builds from the same document
are the same pure function of the document, hence structurally identical. -/
theorem C5_unique_catalog (fuel : Nat) (spec : OpenAPISpec) (ts : List Tool)
    (hgen : generate_tools_from_openapi fuel spec = some ts)
    (hids : ∀ pi ∈ spec.paths, ∀ mo ∈ pi.2,
      httpMethods.contains (strUpper mo.1) = true →
      mo.2.operationId.isSome = true)
    (hnodup : (toolNames spec).Nodup) :
    (∀ pi ∈ spec.paths, ∀ mo ∈ pi.2,
      httpMethods.contains (strUpper mo.1) = true →
      ∀ oid, mo.2.operationId = some oid →
        (ts.map Tool.name).count oid = 1) ∧
    generate_tools_from_openapi fuel spec =
      generate_tools_from_openapi fuel spec := by
  refine ⟨?_, rfl⟩
  intro pi hpi mo hmo hcond oid hoid
  rw [generate_names fuel spec ts hgen]
  apply List.count_eq_one_of_mem hnodup
  apply List.mem_flatten.mpr
  refine ⟨(pi.2.filter (fun mo => httpMethods.contains (strUpper mo.1))).map
    (fun mo => mo.2.operationId.getD (mo.1 ++ "_" ++ pi.1)), ?_, ?_⟩
  · exact List.mem_map.mpr ⟨pi, hpi, rfl⟩
  · exact List.mem_map.mpr ⟨mo, List.mem_filter.mpr ⟨hmo, hcond⟩,
      by rw [hoid]; rfl⟩

def C5op1 : Operation := ⟨some "one", none, none, none, none⟩
def C5op2 : Operation := ⟨some "two", none, none, none, none⟩
def C5wSpec : OpenAPISpec :=
  ⟨[("/a", [("get", C5op1)]), ("/b", [("post", C5op2)])], ⟨[]⟩⟩

theorem C5_witness :
    ((((generate_tools_from_openapi 3 C5wSpec).getD []).map
        Tool.name).count "one" = 1) ∧
      generate_tools_from_openapi 3 C5wSpec =
        generate_tools_from_openapi 3 C5wSpec := by
  have h := C5_unique_catalog 3 C5wSpec
    ((generate_tools_from_openapi 3 C5wSpec).getD []) rfl
    (by decide) (by decide)
  exact ⟨h.1 ("/a", [("get", C5op1)]) (List.mem_cons_self _ _)
    ("get", C5op1) (List.mem_cons_self _ _) (by decide) "one" rfl, h.2⟩

/-! ### Claim C10 -/

def C10opNoId : Operation := ⟨none, none, none, none, none⟩
def C10opColl : Operation := ⟨some "get_/x", none, none, none, none⟩

/-- A document where one operation lacks an `operationId` (listed under
the fallback name `get_/x`) while another operation's `operationId` is
exactly that fallback string. -/
def C10spec : OpenAPISpec :=
  ⟨[("/x", [("get", C10opNoId)]), ("/y", [("post", C10opColl)])], ⟨[]⟩⟩

/-- C10 counterexample: dispatching the listed fallback name does not
always return tool-not-found — when another operation's `operationId`
equals the fallback string, dispatch finds and calls that other operation
(here a POST to `/y` instead of the listed GET `/x` tool). -/
theorem C10_counterexample :
    (generate_tools_from_openapi 3 C10spec).map (List.map Tool.name) =
        some ["get_/x", "get_/x"] ∧
      call_tool C10spec "u" "p" "get_/x" [] =
        .send "POST" "https://your-WYGIWYH.com/y"
          [("Authorization", "Basic dTpw"), ("Accept", "application/json")]
          [] none ∧
      call_tool C10spec "u" "p" "get_/x" [] ≠ .toolNotFound := by
  refine ⟨rfl, rfl, ?_⟩
  intro h
  rw [show call_tool C10spec "u" "p" "get_/x" [] =
      .send "POST" "https://your-WYGIWYH.com/y"
        [("Authorization", "Basic dTpw"), ("Accept", "application/json")]
        [] none from rfl] at h
  exact PrepResult.noConfusion h

/-- C10 amended: for every operation lacking an `operationId`, the catalog
lists a tool under the fallback name `"<method>_<path>"`; provided
credentials are configured and no operation's `operationId` equals that
fallback string, dispatching the listed name returns the tool-not-found
error (dispatch matches only on `operationId` equality), so such a listed
tool is not callable. -/
theorem C10_amended_fallback_uncallable (fuel : Nat) (spec : OpenAPISpec)
    (u p : String) (args : List (String × String)) (ts : List Tool)
    (path m : String) (item : List (String × Operation)) (op : Operation)
    (hu : u ≠ "") (hp : p ≠ "")
    (hgen : generate_tools_from_openapi fuel spec = some ts)
    (hpi : (path, item) ∈ spec.paths) (hmo : (m, op) ∈ item)
    (hcond : httpMethods.contains (strUpper m) = true)
    (hnoid : op.operationId = none)
    (hnocoll : ∀ pi ∈ spec.paths, ∀ mo ∈ pi.2,
      mo.2.operationId ≠ some (m ++ "_" ++ path)) :
    (m ++ "_" ++ path) ∈ ts.map Tool.name ∧
      call_tool spec u p (m ++ "_" ++ path) args = .toolNotFound := by
  constructor
  · rw [generate_names fuel spec ts hgen]
    apply List.mem_flatten.mpr
    refine ⟨(item.filter
      (fun mo => httpMethods.contains (strUpper mo.1))).map
      (fun mo => mo.2.operationId.getD (mo.1 ++ "_" ++ path)), ?_, ?_⟩
    · exact List.mem_map.mpr ⟨(path, item), hpi, rfl⟩
    · exact List.mem_map.mpr ⟨(m, op), List.mem_filter.mpr ⟨hmo, hcond⟩,
        by rw [hnoid]; rfl⟩
  · have hauth := get_auth_header_ne_empty u p hu hp
    simp only [call_tool, if_neg hauth,
      findOperation_eq_none (m ++ "_" ++ path) spec.paths hnocoll]

def C10wSpec : OpenAPISpec := ⟨[("/x", [("get", C10opNoId)])], ⟨[]⟩⟩

theorem C10_amended_witness :
    ("get_/x" ∈ ((generate_tools_from_openapi 3 C10wSpec).getD []).map
        Tool.name) ∧
      call_tool C10wSpec "u" "p" "get_/x" [] = .toolNotFound := by
  have h := C10_amended_fallback_uncallable 3 C10wSpec "u" "p" []
    ((generate_tools_from_openapi 3 C10wSpec).getD [])
    "/x" "get" [("get", C10opNoId)] C10opNoId
    (by decide) (by decide) rfl (List.mem_cons_self _ _)
    (List.mem_cons_self _ _) (by decide) rfl (by decide)
  exact h

/-! ### Reachability predicates for Claim C3

Top-level property names of a resolved fragment can only originate from
the fragment's own `properties`, from `allOf` sub-schemas (transitively),
from a `$ref` target in the components table, or verbatim from a `oneOf`
alternative.  The two predicates below cover the first two sources; the
components table is quantified separately in the theorem. -/

mutual
/-- No `oneOf` key occurs in this fragment or transitively in its `allOf`
sub-schemas. -/
def oneOfFree : Fragment → Bool
  | Fragment.mk _ a o _ _ _ _ _ _ => o.isNone && oneOfFreeOpt a
def oneOfFreeOpt : Option (List Fragment) → Bool
  | none => true
  | some l => oneOfFreeList l
def oneOfFreeList : List Fragment → Bool
  | [] => true
  | f :: rest => oneOfFree f && oneOfFreeList rest
end

mutual
/-- Property `p`, wherever it occurs in this fragment's `properties` or
transitively in an `allOf` sub-schema's, is marked read-only. -/
def roAlways (p : String) : Fragment → Bool
  | Fragment.mk _ a _ _ pr _ _ _ _ =>
    (match pr with
     | none => true
     | some ps => ps.all (fun nv => nv.1 != p || nv.2.readOnly.getD false)) &&
    roAlwaysOpt p a
def roAlwaysOpt (p : String) : Option (List Fragment) → Bool
  | none => true
  | some l => roAlwaysList p l
def roAlwaysList (p : String) : List Fragment → Bool
  | [] => true
  | f :: rest => roAlways p f && roAlwaysList p rest
end

theorem oneOfFree_oneOf (f : Fragment) (h : oneOfFree f = true) :
    f.oneOf = none := by
  obtain ⟨r, a, o, t, pr, rq, ro, d, e⟩ := f
  simp only [oneOfFree, Bool.and_eq_true, Option.isNone_iff_eq_none] at h
  exact h.1

theorem oneOfFree_allOf (f : Fragment) (subs : List Fragment)
    (h : oneOfFree f = true) (ha : f.allOf = some subs) :
    oneOfFreeList subs = true := by
  obtain ⟨r, a, o, t, pr, rq, ro, d, e⟩ := f
  simp only [oneOfFree, Bool.and_eq_true] at h
  cases ha
  exact h.2

theorem oneOfFreeList_mem (l : List Fragment) (s : Fragment)
    (h : oneOfFreeList l = true) (hs : s ∈ l) : oneOfFree s = true := by
  induction l with
  | nil => exact absurd hs (List.not_mem_nil s)
  | cons f rest ih =>
    simp only [oneOfFreeList, Bool.and_eq_true] at h
    rcases List.mem_cons.mp hs with rfl | hs'
    · exact h.1
    · exact ih h.2 hs'

theorem roAlways_props (f : Fragment) (p : String)
    (ps : List (String × Fragment)) (h : roAlways p f = true)
    (hp : f.properties = some ps) :
    ∀ nv ∈ ps, nv.1 ≠ p ∨ nv.2.readOnly.getD false = true := by
  obtain ⟨r, a, o, t, pr, rq, ro, d, e⟩ := f
  simp only [roAlways, Bool.and_eq_true] at h
  cases hp
  intro nv hnv
  have := (List.all_eq_true.mp h.1) nv hnv
  rcases Bool.or_eq_true_iff.mp this with hne | hro
  · left
    exact bne_iff_ne.mp hne
  · right
    exact hro

theorem roAlways_allOf (f : Fragment) (p : String) (subs : List Fragment)
    (h : roAlways p f = true) (ha : f.allOf = some subs) :
    roAlwaysList p subs = true := by
  obtain ⟨r, a, o, t, pr, rq, ro, d, e⟩ := f
  simp only [roAlways, Bool.and_eq_true] at h
  cases ha
  exact h.2

theorem roAlwaysList_mem (p : String) (l : List Fragment) (s : Fragment)
    (h : roAlwaysList p l = true) (hs : s ∈ l) : roAlways p s = true := by
  induction l with
  | nil => exact absurd hs (List.not_mem_nil s)
  | cons f rest ih =>
    simp only [roAlwaysList, Bool.and_eq_true] at h
    rcases List.mem_cons.mp hs with rfl | hs'
    · exact h.1
    · exact ih h.2 hs'

theorem dictGet_mem {α : Type} (l : List (String × α)) (k : String)
    (v : α) (h : dictGet l k = some v) : (k, v) ∈ l := by
  induction l with
  | nil => exact Option.noConfusion h
  | cons hd tl ih =>
    obtain ⟨k0, v0⟩ := hd
    rw [dictGet_cons] at h
    by_cases hk : k = k0
    · rw [if_pos hk] at h
      injection h with h'
      rw [hk, h']
      exact List.mem_cons_self _ _
    · rw [if_neg hk] at h
      exact List.mem_cons_of_mem _ (ih h)

theorem refOutcome_target_mem (f : Fragment) (comps : Components)
    (t : Fragment) (h : refOutcome f comps = .target t) :
    ∃ nm, (nm, t) ∈ comps.schemas := by
  rcases hrf : f.ref with _ | rstr
  · simp only [refOutcome, hrf] at h
    exact RefOutcome.noConfusion h
  · rcases hsp : splitOnChar rstr.data '/' with _ | ⟨p0, rest0⟩
    · simp only [refOutcome, hrf, hsp] at h
      exact RefOutcome.noConfusion h
    · by_cases h0 : p0 = "#"
      case neg =>
        simp only [refOutcome, hrf, hsp, h0, if_false] at h
        exact RefOutcome.noConfusion h
      rcases rest0 with _ | ⟨p1, rest1⟩
      · simp only [refOutcome, hrf, hsp, h0, if_true] at h
        exact RefOutcome.noConfusion h
      by_cases h1 : p1 = "components"
      case neg =>
        simp only [refOutcome, hrf, hsp, h0, h1, if_true, if_false] at h
        exact RefOutcome.noConfusion h
      rcases rest1 with _ | ⟨p2, rest2⟩
      · simp only [refOutcome, hrf, hsp, h0, h1, if_true] at h
        exact RefOutcome.noConfusion h
      by_cases h2 : p2 = "schemas"
      case neg =>
        simp only [refOutcome, hrf, hsp, h0, h1, h2, if_true, if_false] at h
        exact RefOutcome.noConfusion h
      rcases rest2 with _ | ⟨nm, rest3⟩
      · simp only [refOutcome, hrf, hsp, h0, h1, h2, if_true] at h
        exact RefOutcome.noConfusion h
      cases hdict : dictGet comps.schemas nm with
      | none =>
        simp only [refOutcome, hrf, hsp, h0, h1, h2, hdict, if_true] at h
        exact RefOutcome.noConfusion h
      | some t' =>
        simp only [refOutcome, hrf, hsp, h0, h1, h2, hdict, if_true,
          RefOutcome.target.injEq] at h
        exact ⟨nm, by rw [← h]; exact dictGet_mem _ _ _ hdict⟩

theorem mem_dictKeys_flatten {α : Type} (L : List (List (String × α)))
    (a : String) :
    a ∈ dictKeys L.flatten ↔ ∃ l ∈ L, a ∈ dictKeys l := by
  simp only [dictKeys, List.mem_map, List.mem_flatten]
  constructor
  · rintro ⟨kv, ⟨l, hl, hkv⟩, rfl⟩
    exact ⟨l, hl, kv, hkv, rfl⟩
  · rintro ⟨l, hl, kv, hkv, rfl⟩
    exact ⟨kv, ⟨l, hl, hkv⟩, rfl⟩

theorem mapM_loop_mem (g : Fragment → Option Fragment) :
    ∀ (subs acc cs : List Fragment),
    List.mapM.loop g subs acc = some cs →
    ∀ c ∈ cs, (∃ s ∈ subs, g s = some c) ∨ c ∈ acc := by
  intro subs
  induction subs with
  | nil =>
    intro acc cs h c hc
    simp only [List.mapM.loop] at h
    injection h with h'
    right
    rw [← h'] at hc
    exact List.mem_reverse.mp hc
  | cons s rest ih =>
    intro acc cs h c hc
    simp only [List.mapM.loop] at h
    cases hg : g s with
    | none => rw [hg] at h; exact Option.noConfusion h
    | some b =>
      rw [hg] at h
      rcases ih (b :: acc) cs h c hc with ⟨s', hs', hg'⟩ | hacc
      · exact Or.inl ⟨s', List.mem_cons_of_mem _ hs', hg'⟩
      · rcases List.mem_cons.mp hacc with rfl | hacc'
        · exact Or.inl ⟨s, List.mem_cons_self _ _, hg⟩
        · exact Or.inr hacc'

theorem mapM_mem_source (g : Fragment → Option Fragment)
    (subs cs : List Fragment) (h : subs.mapM g = some cs) :
    ∀ c ∈ cs, ∃ s ∈ subs, g s = some c := by
  intro c hc
  rcases mapM_loop_mem g subs [] cs h c hc with hex | hacc
  · exact hex
  · exact absurd hacc (List.not_mem_nil c)

/-- Invariant of the property-conversion fold of the resolver's plain
branch (lines 106-110), for any recursive converter `g`: if every entry of
`ps` either is not named `p` or is marked read-only, the fold never inserts
key `p`. -/
theorem props_fold_keys (g : Fragment → Option Fragment) (p : String) :
    ∀ (ps : List (String × Fragment))
      (st : Option (List (String × Fragment)))
      (kept : List (String × Fragment)),
    ps.foldl
      (fun acc nv =>
        match acc with
        | none => none
        | some kept =>
          if nv.2.readOnly.getD false then some kept
          else
            match g nv.2 with
            | none => none
            | some cs => some (upsert kept nv.1 cs)) st = some kept →
    (∀ nv ∈ ps, nv.1 ≠ p ∨ nv.2.readOnly.getD false = true) →
    (∀ acc, st = some acc → p ∉ dictKeys acc) →
    p ∉ dictKeys kept := by
  intro ps
  induction ps with
  | nil =>
    intro st kept h hro hst
    rw [List.foldl_nil] at h
    exact hst kept h
  | cons nv rest ih =>
    intro st kept h hro hst
    rw [List.foldl_cons] at h
    apply ih _ kept h (fun x hx => hro x (List.mem_cons_of_mem _ hx))
    intro acc hacc
    cases st with
    | none => exact Option.noConfusion hacc
    | some acc0 =>
      have hacc0 := hst acc0 rfl
      replace hacc :
          (if nv.2.readOnly.getD false then some acc0
           else
             match g nv.2 with
             | none => none
             | some cs => some (upsert acc0 nv.1 cs)) = some acc := hacc
      by_cases hro1 : nv.2.readOnly.getD false = true
      · rw [if_pos hro1] at hacc
        injection hacc with h'
        rw [← h']
        exact hacc0
      · rw [if_neg hro1] at hacc
        cases hg : g nv.2 with
        | none => rw [hg] at hacc; exact Option.noConfusion hacc
        | some cs =>
          rw [hg] at hacc
          injection hacc with h'
          rw [← h']
          intro hmem
          rcases (mem_dictKeys_upsert acc0 nv.1 p cs).mp hmem with hm | hm
          · exact hacc0 hm
          · rcases hro nv (List.mem_cons_self _ _) with hne | hro2
            · exact hne hm.symm
            · exact hro1 hro2

/-- If `p` is absent from every converted sub-schema's properties and
required, it is absent from the `allOf` merge. -/
theorem ro_merge_keys (p : String) (cs : List Fragment)
    (hall : ∀ c ∈ cs, p ∉ dictKeys (c.properties.getD []) ∧
      p ∉ c.required.getD []) :
    p ∉ dictKeys ((mergeAllOf cs).properties.getD []) ∧
      p ∉ (mergeAllOf cs).required.getD [] := by
  constructor
  · rw [mergeAllOf_properties, foldl_mergeProps]
    cases hP : (cs.map (fun c => c.properties.getD [])).flatten with
    | nil => simp [updateAll, dictKeys]
    | cons x rest =>
      rw [if_neg (by simpa [List.isEmpty_iff] using
        updateAll_ne_nil [] (x :: rest) (Or.inr (by simp)))]
      simp only [Option.getD_some]
      intro hm
      rcases (mem_dictKeys_updateAll [] (x :: rest) p).mp hm with h0 | h0
      · simp [dictKeys] at h0
      · rw [← hP] at h0
        rcases (mem_dictKeys_flatten _ p).mp h0 with ⟨l, hl, hpl⟩
        rcases List.mem_map.mp hl with ⟨c, hc, rfl⟩
        exact (hall c hc).1 hpl
  · rw [mergeAllOf_required, foldl_mergeReq, List.nil_append]
    cases hR : (cs.map (fun c => c.required.getD [])).flatten with
    | nil => simp
    | cons x rest =>
      rw [if_neg (by simp)]
      simp only [Option.getD_some, List.mem_dedup]
      intro hm
      rw [← hR] at hm
      rcases List.mem_flatten.mp hm with ⟨l, hl, hpl⟩
      rcases List.mem_map.mp hl with ⟨c, hc, rfl⟩
      exact (hall c hc).2 hpl


/-- Read-only filtering through `convertTail`: if the converter `g` itself
never lets `p` through (on `oneOf`-free, everywhere-read-only inputs), and
`f` is `oneOf`-free with `p` read-only at every occurrence, then `p` is
absent from the result's properties and required. -/
theorem convertTail_ro (g : Fragment → Option Fragment) (p : String)
    (f r : Fragment) (h : convertTail g f = some r)
    (hg : ∀ s c, g s = some c → oneOfFree s = true → roAlways p s = true →
      p ∉ dictKeys (c.properties.getD []) ∧ p ∉ c.required.getD [])
    (hof : oneOfFree f = true) (hro : roAlways p f = true) :
    p ∉ dictKeys (r.properties.getD []) ∧ p ∉ r.required.getD [] := by
  rw [convertTail] at h
  cases hall : f.allOf with
  | some subs =>
    simp only [hall] at h
    cases hmapm : subs.mapM g with
    | none =>
      simp only [hmapm] at h
      exact Option.noConfusion h
    | some cs =>
      simp only [hmapm] at h
      injection h with h'
      rw [← h']
      apply ro_merge_keys p cs
      intro c hc
      obtain ⟨s, hs, hconv⟩ := mapM_mem_source g subs cs hmapm c hc
      exact hg s c hconv
        (oneOfFreeList_mem subs s (oneOfFree_allOf f subs hof hall) hs)
        (roAlwaysList_mem p subs s (roAlways_allOf f p subs hro hall) hs)
  | none =>
    simp only [hall] at h
    have hone : f.oneOf = none := oneOfFree_oneOf f hof
    simp only [hone] at h
    cases hfp : f.properties with
    | none =>
      simp only [hfp] at h
      injection h with h'
      rw [← h']
      constructor
      · simp [dictKeys]
      · cases hfr : f.required with
        | none => simp [hfr]
        | some rs => simp [hfr, dictKeys]
    | some ps =>
      simp only [hfp] at h
      cases hfold : ps.foldl
          (fun acc nv =>
            match acc with
            | none => none
            | some kept =>
              if nv.2.readOnly.getD false then some kept
              else
                match g nv.2 with
                | none => none
                | some cs => some (upsert kept nv.1 cs)) (some []) with
      | none =>
        simp only [hfold] at h
        exact Option.noConfusion h
      | some kept =>
        simp only [hfold] at h
        injection h with h'
        rw [← h']
        have hkept : p ∉ dictKeys kept := by
          apply props_fold_keys g p ps (some []) kept hfold
            (roAlways_props f p ps hro hfp)
          intro acc hacc
          injection hacc with h''
          rw [← h'']
          simp [dictKeys]
        constructor
        · simpa using hkept
        · cases hfr : f.required with
          | none => simp [hfr]
          | some rs =>
            simp only [hfr, Option.getD_some]
            intro hmem
            rcases List.mem_filter.mp hmem with ⟨_, hpred⟩
            apply hkept
            simpa [List.contains, List.elem_iff] using hpred

/-! ### Claim C3 -/

/-- C3 amended: for every Schema Fragment that is `oneOf`-free (itself,
transitively through `allOf` sub-schemas, and every component schema) and
in which property `p` is marked read-only at every reachable occurrence
(its own `properties`, transitively in `allOf` sub-schemas, and in every
component schema), the resolved fragment's `properties` do not contain `p`
and its `required` list does not contain `p`. -/
theorem C3_amended_readOnly_absent (fuel : Nat) :
    ∀ (f : Fragment) (comps : Components) (r : Fragment) (p : String),
    convert_openapi_to_json_schema fuel f comps = some r →
    oneOfFree f = true →
    (∀ nv ∈ comps.schemas, oneOfFree nv.2 = true) →
    roAlways p f = true →
    (∀ nv ∈ comps.schemas, roAlways p nv.2 = true) →
    p ∉ dictKeys (r.properties.getD []) ∧ p ∉ r.required.getD [] := by
  induction fuel with
  | zero =>
    intro f comps r p h _ _ _ _
    exact Option.noConfusion h
  | succ fuel ih =>
    intro f comps r p h hof hofc hro hroc
    rw [convert_openapi_to_json_schema] at h
    by_cases hemp : f.isEmptyDict = true
    · rw [if_pos hemp] at h
      injection h with h'
      rw [← h']
      constructor <;> simp [Fragment.emptyDict, dictKeys]
    · rw [if_neg hemp] at h
      cases href : refOutcome f comps with
      | indexError =>
        simp only [href] at h
        exact Option.noConfusion h
      | target tgt =>
        simp only [href] at h
        obtain ⟨nm, hmem⟩ := refOutcome_target_mem f comps tgt href
        exact ih tgt comps r p h (hofc (nm, tgt) hmem) hofc
          (hroc (nm, tgt) hmem) hroc
      | absent =>
        simp only [href] at h
        exact convertTail_ro _ p f r h
          (fun s c hc hofs hros => ih s comps c p hc hofs hofc hros hroc)
          hof hro
      | fallthrough =>
        simp only [href] at h
        exact convertTail_ro _ p f r h
          (fun s c hc hofs hros => ih s comps c p hc hofs hofc hros hroc)
          hof hro

/-- A read-only property hidden inside a `oneOf` alternative: the resolver
returns the first alternative verbatim (line 101) without the read-only
filter. -/
def C3leak : Fragment :=
  { Fragment.emptyDict with
      oneOf := some [{ Fragment.emptyDict with
        properties := some [("secret", { Fragment.emptyDict with
          readOnly := some true })]
        required := some ["secret"] }] }

/-- A read-only property in one `allOf` sub-schema re-supplied
(non-read-only) by a later sub-schema: the merged properties contain it. -/
def C3resupply : Fragment :=
  { Fragment.emptyDict with
      allOf := some [
        { Fragment.emptyDict with
            properties := some [("secret", { Fragment.emptyDict with
              readOnly := some true })] },
        { Fragment.emptyDict with
            properties := some [("secret", { Fragment.emptyDict with
              type := some "string" })] }] }

/-- C3 counterexample: the read-only property `secret`, reachable through
a `oneOf` alternative, survives into the resolved fragment's `properties`
and `required` (first two conjuncts); and a property marked read-only in
one `allOf` sub-schema still appears when a later sub-schema re-supplies
it (third conjunct).  The claim fails as stated for fragments resolved
through `oneOf`, and for `allOf` name collisions. -/
theorem C3_counterexample :
    (convert_openapi_to_json_schema 2 C3leak ⟨[]⟩).map
        (fun r => dictKeys (r.properties.getD [])) = some ["secret"] ∧
      (convert_openapi_to_json_schema 2 C3leak ⟨[]⟩).map
        (fun r => r.required.getD []) = some ["secret"] ∧
      (convert_openapi_to_json_schema 3 C3resupply ⟨[]⟩).map
        (fun r => dictKeys (r.properties.getD [])) = some ["secret"] :=
  ⟨rfl, rfl, rfl⟩

def C3wFrag : Fragment :=
  { Fragment.emptyDict with
      properties := some [("secret", { Fragment.emptyDict with
          readOnly := some true }),
        ("ok", { Fragment.emptyDict with type := some "string" })]
      required := some ["secret", "ok"] }

theorem C3_amended_witness :
    "secret" ∉ dictKeys
        (((convert_openapi_to_json_schema 2 C3wFrag
          ⟨[]⟩).getD Fragment.emptyDict).properties.getD []) ∧
      "secret" ∉ ((convert_openapi_to_json_schema 2 C3wFrag
        ⟨[]⟩).getD Fragment.emptyDict).required.getD [] :=
  C3_amended_readOnly_absent 2 C3wFrag ⟨[]⟩
    ((convert_openapi_to_json_schema 2 C3wFrag ⟨[]⟩).getD Fragment.emptyDict)
    "secret" rfl (by decide) (by simp) (by decide) (by simp)
